import Mathlib

/-!
Shallow embedding of the rate-limiter subsystem (`src/Rate Limiter/main.py`).

Three admission-control strategies share the shape
`allow : config → store → key → clock → Bool × store`:

* `FixedWindowCounterStrategy` works on `int(time.time())`, embedded as `ℤ`;
  its per-key state is `(count, window_start_time)`.
* `SlidingWindowLogStrategy` and `TokenBucketStrategy` work on the float
  `time.time()`, embedded as `ℚ` (the spec treats these timestamps and the
  token count as real-valued); their per-key states are a timestamp log and
  `(tokens, last_refill_time)` respectively.

Python dictionaries (`self.store`, `self.logs`, `self.buckets`) are embedded
as functions `String → Option σ`, with `dict.get(key, default)` as
`(s key).getD default` and item assignment as a pointwise update.
-/

namespace RateLimiterRepo

/-- A per-strategy keyed state store: `key -> per-key state`, lazily populated
(missing keys are `none`), mirroring the Python dicts. -/
def Store (σ : Type) : Type := String → Option σ

/-- The empty store: no key has state yet. -/
def Store.empty {σ : Type} : Store σ := fun _ => none

/-- `store[key] = v` in Python: pointwise functional update. -/
def Store.update {σ : Type} (s : Store σ) (key : String) (v : σ) : Store σ :=
  fun q => if q = key then some v else s q

theorem Store.empty_apply {σ : Type} (q : String) : (Store.empty : Store σ) q = none := rfl

theorem Store.update_apply {σ : Type} (s : Store σ) (key : String) (v : σ) (q : String) :
    Store.update s key v q = if q = key then some v else s q := rfl

theorem Store.update_self {σ : Type} (s : Store σ) (key : String) (v : σ) :
    Store.update s key v key = some v := by
  simp [Store.update]

theorem Store.update_other {σ : Type} (s : Store σ) (key : String) (v : σ)
    (q : String) (hq : q ≠ key) : Store.update s key v q = s q := by
  simp [Store.update, hq]

/-! ### Fixed window counter strategy -/

/-- Configuration stored by `FixedWindowCounterStrategy.__init__`
(both annotated `int` in the source). -/
structure FWConfig where
  window_size : ℤ
  max_requests : ℤ
  deriving Repr, DecidableEq

/-- `FixedWindowCounterStrategy.__init__`: stores the two numbers; the source
performs no validation and has no failure path. -/
def FixedWindowCounterStrategy.init (window_size max_requests : ℤ) : FWConfig :=
  ⟨window_size, max_requests⟩

/-- `FixedWindowCounterStrategy.allow`, with the clock reading
(`current_time = int(time.time())`) passed explicitly.  Per-key state is
`(count, window_start_time)`.  Python's `%` agrees with Lean's `Int.emod`
for a positive modulus. -/
def FixedWindowCounterStrategy.allow (cfg : FWConfig) (store : Store (ℤ × ℤ))
    (key : String) (current_time : ℤ) : Bool × Store (ℤ × ℤ) :=
  let window_start := current_time - current_time % cfg.window_size
  let p := (store key).getD (0, window_start)
  if p.2 ≠ window_start then
    (true, Store.update store key (1, window_start))
  else if p.1 < cfg.max_requests then
    (true, Store.update store key (p.1 + 1, window_start))
  else
    (false, store)

/-- A sequence of `allow` calls for one fixed key, returning the decisions in
order together with the final store. -/
def FixedWindowCounterStrategy.runKey (cfg : FWConfig) (key : String) :
    Store (ℤ × ℤ) → List ℤ → List Bool × Store (ℤ × ℤ)
  | s, [] => ([], s)
  | s, t :: ts =>
    let r := FixedWindowCounterStrategy.allow cfg s key t
    let rest := FixedWindowCounterStrategy.runKey cfg key r.2 ts
    (r.1 :: rest.1, rest.2)

/-! ### Sliding window log strategy -/

/-- Configuration stored by `SlidingWindowLogStrategy.__init__`.  The window
size participates in float arithmetic (`now - self.window_size`), hence `ℚ`;
`max_requests` is only compared with a length, hence `ℤ`. -/
structure SWConfig where
  window_size : ℚ
  max_requests : ℤ
  deriving Repr, DecidableEq

/-- `SlidingWindowLogStrategy.__init__`: stores the two numbers, unvalidated. -/
def SlidingWindowLogStrategy.init (window_size : ℚ) (max_requests : ℤ) : SWConfig :=
  ⟨window_size, max_requests⟩

/-- The per-key core of `SlidingWindowLogStrategy.allow`: prune the deque from
the front while `log[0] < window_start`, then admit iff
`len(log) < max_requests`, appending `now` on admission. -/
def SlidingWindowLogStrategy.allowKey (cfg : SWConfig) (log : List ℚ) (now : ℚ) :
    Bool × List ℚ :=
  let window_start := now - cfg.window_size
  let pruned := log.dropWhile (fun t => decide (t < window_start))
  if (pruned.length : ℤ) < cfg.max_requests then (true, pruned ++ [now])
  else (false, pruned)

/-- `SlidingWindowLogStrategy.allow` on the whole store.  The source inserts an
empty deque for an unseen key and then mutates that deque in place, so the
net effect of a call is always `logs[key] = final log`. -/
def SlidingWindowLogStrategy.allow (cfg : SWConfig) (logs : Store (List ℚ))
    (key : String) (now : ℚ) : Bool × Store (List ℚ) :=
  let r := SlidingWindowLogStrategy.allowKey cfg ((logs key).getD []) now
  (r.1, Store.update logs key r.2)

/-- A sequence of per-key `allow` calls for one key, pairing each clock value
with its decision and returning the final log. -/
def SlidingWindowLogStrategy.steps (cfg : SWConfig) :
    List ℚ → List ℚ → List (ℚ × Bool) × List ℚ
  | log, [] => ([], log)
  | log, t :: ts =>
    let r := SlidingWindowLogStrategy.allowKey cfg log t
    let rest := SlidingWindowLogStrategy.steps cfg r.2 ts
    ((t, r.1) :: rest.1, rest.2)

/-- The timestamps of the admitted (true-returning) calls of a decision trace. -/
def admittedTimes (out : List (ℚ × Bool)) : List ℚ :=
  (out.filter (fun p => p.2)).map (fun p => p.1)

/-! ### Token bucket strategy -/

/-- Configuration stored by `TokenBucketStrategy.__init__`.  `refill_rate` is a
float; `capacity` is annotated `int` but only ever used in real-valued
arithmetic (`min(self.capacity, ...)`), hence both are `ℚ`. -/
structure TBConfig where
  refill_rate : ℚ
  capacity : ℚ
  deriving Repr, DecidableEq

/-- `TokenBucketStrategy.__init__`: stores the two numbers, unvalidated. -/
def TokenBucketStrategy.init (refill_rate capacity : ℚ) : TBConfig :=
  ⟨refill_rate, capacity⟩

/-- `TokenBucketStrategy.allow`.  Per-key state is `(tokens, last_refill_time)`,
defaulting to a full bucket `(capacity, now)` on first sight.  Note the source
does not clamp `elapsed = now - last_time` at zero. -/
def TokenBucketStrategy.allow (cfg : TBConfig) (buckets : Store (ℚ × ℚ))
    (key : String) (now : ℚ) : Bool × Store (ℚ × ℚ) :=
  let p := (buckets key).getD (cfg.capacity, now)
  let elapsed := now - p.2
  let tokens := min cfg.capacity (p.1 + elapsed * cfg.refill_rate)
  if 1 ≤ tokens then
    (true, Store.update buckets key (tokens - 1, now))
  else
    (false, Store.update buckets key (tokens, now))

/-- A sequence of `allow` calls for one fixed key, returning the decisions in
order together with the final store. -/
def TokenBucketStrategy.runKey (cfg : TBConfig) (key : String) :
    Store (ℚ × ℚ) → List ℚ → List Bool × Store (ℚ × ℚ)
  | s, [] => ([], s)
  | s, t :: ts =>
    let r := TokenBucketStrategy.allow cfg s key t
    let rest := TokenBucketStrategy.runKey cfg key r.2 ts
    (r.1 :: rest.1, rest.2)

/-! ### Evaluation lemmas for single token-bucket calls -/

/-- First sight of a key: the bucket defaults to `(capacity, now)`, so with
`1 ≤ capacity` the call is admitted and one token consumed. -/
theorem tb_allow_fresh (cfg : TBConfig) (s : Store (ℚ × ℚ)) (key : String)
    (t : ℚ) (hs : s key = none) (hcap : 1 ≤ cfg.capacity) :
    TokenBucketStrategy.allow cfg s key t
      = (true, Store.update s key (cfg.capacity - 1, t)) := by
  simp only [TokenBucketStrategy.allow, hs, Option.getD_none, sub_self,
    zero_mul, add_zero, min_self]
  rw [if_pos hcap]

/-- A call with zero elapsed time (`now` equal to the stored refill time):
the refill formula leaves the token count unchanged. -/
theorem tb_allow_stationary (cfg : TBConfig) (s : Store (ℚ × ℚ)) (key : String)
    (t x : ℚ) (hs : s key = some (x, t)) (hx : x ≤ cfg.capacity) :
    TokenBucketStrategy.allow cfg s key t
      = if 1 ≤ x then (true, Store.update s key (x - 1, t))
        else (false, Store.update s key (x, t)) := by
  simp only [TokenBucketStrategy.allow, hs, Option.getD_some, sub_self,
    zero_mul, add_zero]
  rw [min_eq_right hx]

/-! ### Claim theorems (concrete scenarios) -/

/-- Claim C3: a token bucket with `refill_rate = 1`, `capacity = 5`, starting
from empty state, admits 5 calls for one key at one clock value, denies the
6th at that same clock value, and admits one further call after the clock
advances by exactly 1 second. -/
theorem C3_token_bucket_burst_and_refill (key : String) (t : ℚ) :
    (TokenBucketStrategy.runKey ⟨1, 5⟩ key Store.empty
        [t, t, t, t, t, t, t + 1]).1
      = [true, true, true, true, true, false, true] := by
  set cfg : TBConfig := ⟨1, 5⟩ with hcfg
  set s0 : Store (ℚ × ℚ) := Store.empty with hs0
  set s1 := Store.update s0 key (4, t) with hs1
  set s2 := Store.update s1 key (3, t) with hs2
  set s3 := Store.update s2 key (2, t) with hs3
  set s4 := Store.update s3 key (1, t) with hs4
  set s5 := Store.update s4 key (0, t) with hs5
  set s6 := Store.update s5 key (0, t) with hs6
  have h1 : TokenBucketStrategy.allow cfg s0 key t = (true, s1) := by
    rw [tb_allow_fresh cfg s0 key t rfl (by norm_num [hcfg])]
    norm_num [hcfg, hs1]
  have h2 : TokenBucketStrategy.allow cfg s1 key t = (true, s2) := by
    rw [tb_allow_stationary cfg s1 key t 4 (Store.update_self s0 key (4, t))
      (by norm_num [hcfg])]
    norm_num [hs2]
  have h3 : TokenBucketStrategy.allow cfg s2 key t = (true, s3) := by
    rw [tb_allow_stationary cfg s2 key t 3 (Store.update_self s1 key (3, t))
      (by norm_num [hcfg])]
    norm_num [hs3]
  have h4 : TokenBucketStrategy.allow cfg s3 key t = (true, s4) := by
    rw [tb_allow_stationary cfg s3 key t 2 (Store.update_self s2 key (2, t))
      (by norm_num [hcfg])]
    norm_num [hs4]
  have h5 : TokenBucketStrategy.allow cfg s4 key t = (true, s5) := by
    rw [tb_allow_stationary cfg s4 key t 1 (Store.update_self s3 key (1, t))
      (by norm_num [hcfg])]
    norm_num [hs5]
  have h6 : TokenBucketStrategy.allow cfg s5 key t = (false, s6) := by
    rw [tb_allow_stationary cfg s5 key t 0 (Store.update_self s4 key (0, t))
      (by norm_num [hcfg])]
    norm_num [hs6]
  have h7 : (TokenBucketStrategy.allow cfg s6 key (t + 1)).1 = true := by
    have he : t + 1 - t = (1 : ℚ) := by ring
    simp only [TokenBucketStrategy.allow, hs6, Store.update_self,
      Option.getD_some, he]
    norm_num [hcfg]
  simp only [TokenBucketStrategy.runKey, h1, h2, h3, h4, h5, h6, h7]

/-- Claim C4: the code does not clamp negative elapsed time.  With
`refill_rate = 1`, `capacity = 5` and stored state `(tokens = 1,
last_refill = 10)`, a call at clock 0 computes `elapsed = -10`, deflates the
token count to `-9`, denies, and stores `(-9, 0)`; whereas the zero-elapsed
call (at clock 10) admits.  This refutes the claim that a clock regression
behaves like a zero-elapsed call. -/
theorem C4_token_bucket_negative_elapsed_not_clamped :
    (TokenBucketStrategy.allow ⟨1, 5⟩
        (Store.update Store.empty "k" (1, 10)) "k" 0).1 = false
    ∧ (TokenBucketStrategy.allow ⟨1, 5⟩
        (Store.update Store.empty "k" (1, 10)) "k" 0).2 "k" = some (-9, 0)
    ∧ (TokenBucketStrategy.allow ⟨1, 5⟩
        (Store.update Store.empty "k" (1, 10)) "k" 10).1 = true := by
  refine ⟨?_, ?_, ?_⟩ <;>
    · simp only [TokenBucketStrategy.allow, Store.update_self,
        Option.getD_some]
      norm_num [Store.update_self]

/-- Claim C5: the constructors perform no validation at all — construction
with non-positive window size, non-positive max-requests, negative refill
rate, or non-positive capacity succeeds and just stores the values (there is
no failure path in any `__init__`), contradicting the claim that invalid
configuration fails with a configuration error at construction time. -/
theorem C5_constructors_accept_invalid_config :
    FixedWindowCounterStrategy.init 0 0 = ⟨0, 0⟩
    ∧ SlidingWindowLogStrategy.init (-1) (-1) = ⟨-1, -1⟩
    ∧ TokenBucketStrategy.init (-1) 0 = ⟨-1, 0⟩ :=
  ⟨rfl, rfl, rfl⟩

/-! ### Fixed-window exhaustion within one aligned window -/

/-- Running a fixed-window strategy on calls that all fall in the aligned
window `w`, starting from an effective per-key count `c` in that window:
with `c + length = N + 1` calls the first `N - c` are admitted and the last
one is denied. -/
theorem fw_run_in_window (cfg : FWConfig) (key : String) (w : ℤ) (N : ℕ)
    (hN : cfg.max_requests = (N : ℤ)) :
    ∀ (ts : List ℤ) (c : ℕ) (s : Store (ℤ × ℤ)),
      (∀ t ∈ ts, t - t % cfg.window_size = w) →
      (s key).getD (0, w) = ((c : ℤ), w) →
      c ≤ N → c + ts.length = N + 1 →
      (FixedWindowCounterStrategy.runKey cfg key s ts).1
        = List.replicate (N - c) true ++ [false]
  | [], c, s, _, _, hc, hlen => by
    exfalso
    simp only [List.length_nil] at hlen
    omega
  | t :: ts', c, s, hwin, hp, hc, hlen => by
    have hw : t - t % cfg.window_size = w := hwin t (List.mem_cons_self t ts')
    by_cases hcN : c < N
    · have hclt : (c : ℤ) < cfg.max_requests := by
        rw [hN]; exact_mod_cast hcN
      have hstep : FixedWindowCounterStrategy.allow cfg s key t
          = (true, Store.update s key ((c : ℤ) + 1, w)) := by
        simp [FixedWindowCounterStrategy.allow, hw, hp, hclt]
      have hrest := fw_run_in_window cfg key w N hN ts' (c + 1)
        (Store.update s key ((c : ℤ) + 1, w))
        (fun u hu => hwin u (List.mem_cons_of_mem t hu))
        (by rw [Store.update_self, Option.getD_some, Prod.mk.injEq]
            push_cast
            exact ⟨rfl, rfl⟩)
        (by omega)
        (by simp only [List.length_cons] at hlen ⊢; omega)
      simp only [FixedWindowCounterStrategy.runKey, hstep, hrest]
      have : N - c = (N - (c + 1)) + 1 := by omega
      rw [this, List.replicate_succ]
      simp
    · have hcN' : c = N := by omega
      have hts' : ts' = [] := by
        simp only [List.length_cons] at hlen
        have : ts'.length = 0 := by omega
        exact List.length_eq_zero.mp this
      subst hcN' hts'
      have hstep : FixedWindowCounterStrategy.allow cfg s key t = (false, s) := by
        simp only [FixedWindowCounterStrategy.allow, hw, hp, ne_eq,
          not_true_eq_false, if_false, hN]
        simp
      simp [FixedWindowCounterStrategy.runKey, hstep]

/-- Claim C2: for a fixed-window strategy with `max_requests = N`, a sequence
of `N + 1` calls for a previously-unseen key, all of whose clock values fall
inside one aligned window, is decided as `N` admissions followed by one
denial. -/
theorem C2_fixed_window_first_n_admitted (cfg : FWConfig) (key : String)
    (s : Store (ℤ × ℤ)) (N : ℕ) (w : ℤ) (ts : List ℤ)
    (hW : 0 < cfg.window_size) (hN : cfg.max_requests = (N : ℤ))
    (hs : s key = none)
    (hwin : ∀ t ∈ ts, t - t % cfg.window_size = w)
    (hlen : ts.length = N + 1) :
    (FixedWindowCounterStrategy.runKey cfg key s ts).1
      = List.replicate N true ++ [false] := by
  have h := fw_run_in_window cfg key w N hN ts 0 s hwin (by simp [hs])
    (Nat.zero_le N) (by omega)
  simpa using h

/-- Witness for C2: window size 10, `max_requests = 2`, three calls at clocks
1, 2, 3 (all in the aligned window starting at 0) for a fresh key decide as
`[true, true, false]`. -/
theorem C2_fixed_window_first_n_admitted_witness :
    (FixedWindowCounterStrategy.runKey ⟨10, 2⟩ "k" Store.empty [1, 2, 3]).1
      = List.replicate 2 true ++ [false] :=
  C2_fixed_window_first_n_admitted ⟨10, 2⟩ "k" Store.empty 2 0 [1, 2, 3]
    (by decide) (by decide) rfl (by decide) rfl

/-- Claim C9: whenever the stored window start for a key differs from the
currently computed aligned window start — in either direction, including a
clock that moved backward into an earlier window — the call resets the count
to 1, stores the new window start, and admits.  Consequently a clock
regression across a window boundary and the subsequent return grant a fresh
allowance: with window size 10 and `max_requests = 2`, the call trace at
clocks `[10, 11, 12, 5, 13, 14]` decides as
`[true, true, false, true, true, true]`. -/
theorem C9_fixed_window_reset_on_window_change (cfg : FWConfig)
    (s : Store (ℤ × ℤ)) (key : String) (now c lw : ℤ)
    (hs : s key = some (c, lw))
    (hlw : lw ≠ now - now % cfg.window_size) :
    (FixedWindowCounterStrategy.allow cfg s key now).1 = true
    ∧ (FixedWindowCounterStrategy.allow cfg s key now).2 key
        = some (1, now - now % cfg.window_size)
    ∧ (FixedWindowCounterStrategy.runKey ⟨10, 2⟩ "k" Store.empty
          [10, 11, 12, 5, 13, 14]).1
        = [true, true, false, true, true, true] := by
  refine ⟨?_, ?_, by decide⟩
  · simp only [FixedWindowCounterStrategy.allow, hs, Option.getD_some]
    rw [if_pos hlw]
  · simp only [FixedWindowCounterStrategy.allow, hs, Option.getD_some]
    rw [if_pos hlw]
    exact Store.update_self s key _

/-- Witness for C9: stored state `(5, 3)` for key `"k"`, clock 10 with window
size 10 computes window start 10 ≠ 3, so the call admits and resets the
count. -/
theorem C9_fixed_window_reset_on_window_change_witness :
    (FixedWindowCounterStrategy.allow ⟨10, 2⟩
        (Store.update Store.empty "k" (5, 3)) "k" 10).1 = true
    ∧ (FixedWindowCounterStrategy.allow ⟨10, 2⟩
        (Store.update Store.empty "k" (5, 3)) "k" 10).2 "k"
        = some (1, 10 - 10 % (10 : ℤ))
    ∧ (FixedWindowCounterStrategy.runKey ⟨10, 2⟩ "k" Store.empty
          [10, 11, 12, 5, 13, 14]).1
        = [true, true, false, true, true, true] :=
  C9_fixed_window_reset_on_window_change ⟨10, 2⟩
    (Store.update Store.empty "k" (5, 3)) "k" 10 5 3 (by decide) (by decide)

/-! ### Idempotent denial -/

theorem dropWhile_idem {α : Type} (p : α → Bool) :
    ∀ l : List α, (l.dropWhile p).dropWhile p = l.dropWhile p
  | [] => rfl
  | a :: l => by
    by_cases h : p a = true
    · simp only [List.dropWhile_cons, if_pos h]
      exact dropWhile_idem p l
    · simp only [List.dropWhile_cons, if_neg h]

/-- A denied fixed-window call returns the store unchanged (the denial branch
performs no write). -/
theorem fw_allow_denied_eq (cfg : FWConfig) (s : Store (ℤ × ℤ)) (key : String)
    (t : ℤ) (h : (FixedWindowCounterStrategy.allow cfg s key t).1 = false) :
    FixedWindowCounterStrategy.allow cfg s key t = (false, s) := by
  simp only [FixedWindowCounterStrategy.allow] at h ⊢
  split_ifs at h ⊢
  rfl

/-- A denied sliding-window call stores only the pruned log, and an identical
immediately-following call is denied again. -/
theorem sw_allow_denied_again (cfg : SWConfig) (logs : Store (List ℚ))
    (key : String) (t : ℚ)
    (h : (SlidingWindowLogStrategy.allow cfg logs key t).1 = false) :
    (SlidingWindowLogStrategy.allow cfg
        (SlidingWindowLogStrategy.allow cfg logs key t).2 key t).1 = false := by
  have hpr := dropWhile_idem (fun u => decide (u < t - cfg.window_size))
    ((logs key).getD [])
  simp only [SlidingWindowLogStrategy.allow, SlidingWindowLogStrategy.allowKey]
    at h
  split_ifs at h with h1
  simp only [SlidingWindowLogStrategy.allow, SlidingWindowLogStrategy.allowKey,
    if_neg h1, Store.update_self, Option.getD_some, hpr]

/-- A denied token-bucket call refreshes `(tokens, now)` without consumption,
and an identical immediately-following call is denied again. -/
theorem tb_allow_denied_again (cfg : TBConfig) (b : Store (ℚ × ℚ))
    (key : String) (t : ℚ)
    (h : (TokenBucketStrategy.allow cfg b key t).1 = false) :
    (TokenBucketStrategy.allow cfg
        (TokenBucketStrategy.allow cfg b key t).2 key t).1 = false := by
  simp only [TokenBucketStrategy.allow] at h
  split_ifs at h with h1
  simp only [TokenBucketStrategy.allow, if_neg h1, Store.update_self,
    Option.getD_some, sub_self, zero_mul, add_zero]
  rw [min_eq_right (min_le_left _ _), if_neg h1]

/-- Claim C6: for every strategy, a denied call does not change the outcome of
an otherwise identical immediately-following call for the same key at the same
clock value, and for the fixed-window strategy the denial branch leaves the
whole store untouched. -/
theorem C6_idempotent_denial
    (fwCfg : FWConfig) (fwStore : Store (ℤ × ℤ)) (keyF : String) (tF : ℤ)
    (swCfg : SWConfig) (swLogs : Store (List ℚ)) (keyS : String) (tS : ℚ)
    (tbCfg : TBConfig) (tbBuckets : Store (ℚ × ℚ)) (keyT : String) (tT : ℚ)
    (hF : (FixedWindowCounterStrategy.allow fwCfg fwStore keyF tF).1 = false)
    (hS : (SlidingWindowLogStrategy.allow swCfg swLogs keyS tS).1 = false)
    (hT : (TokenBucketStrategy.allow tbCfg tbBuckets keyT tT).1 = false) :
    (FixedWindowCounterStrategy.allow fwCfg fwStore keyF tF).2 = fwStore
    ∧ (FixedWindowCounterStrategy.allow fwCfg
        (FixedWindowCounterStrategy.allow fwCfg fwStore keyF tF).2 keyF
          tF).1 = false
    ∧ (SlidingWindowLogStrategy.allow swCfg
        (SlidingWindowLogStrategy.allow swCfg swLogs keyS tS).2 keyS
          tS).1 = false
    ∧ (TokenBucketStrategy.allow tbCfg
        (TokenBucketStrategy.allow tbCfg tbBuckets keyT tT).2 keyT
          tT).1 = false := by
  refine ⟨?_, ?_, sw_allow_denied_again _ _ _ _ hS,
    tb_allow_denied_again _ _ _ _ hT⟩
  · rw [fw_allow_denied_eq _ _ _ _ hF]
  · rw [fw_allow_denied_eq _ _ _ _ hF]
    exact hF

/-- Witness for C6: a full fixed window (count 2 of 2), an over-full sliding
window with `max_requests = 0`, and an empty token bucket all deny, and deny
again on the identical next call. -/
theorem C6_idempotent_denial_witness :
    (FixedWindowCounterStrategy.allow ⟨10, 2⟩
        (Store.update Store.empty "k" (2, 0)) "k" 5).2
      = Store.update Store.empty "k" (2, 0)
    ∧ (FixedWindowCounterStrategy.allow ⟨10, 2⟩
        (FixedWindowCounterStrategy.allow ⟨10, 2⟩
          (Store.update Store.empty "k" (2, 0)) "k" 5).2 "k" 5).1 = false
    ∧ (SlidingWindowLogStrategy.allow ⟨10, 0⟩
        (SlidingWindowLogStrategy.allow ⟨10, 0⟩ Store.empty "s" 0).2 "s"
          0).1 = false
    ∧ (TokenBucketStrategy.allow ⟨1, 5⟩
        (TokenBucketStrategy.allow ⟨1, 5⟩
          (Store.update Store.empty "t" (0, 7)) "t" 7).2 "t" 7).1 = false :=
  C6_idempotent_denial ⟨10, 2⟩ (Store.update Store.empty "k" (2, 0)) "k" 5
    ⟨10, 0⟩ Store.empty "s" 0
    ⟨1, 5⟩ (Store.update Store.empty "t" (0, 7)) "t" 7
    (by decide)
    (by simp [SlidingWindowLogStrategy.allow, SlidingWindowLogStrategy.allowKey,
      Store.empty_apply])
    (by norm_num [TokenBucketStrategy.allow, Store.update_self])

/-! ### Cross-key independence and per-key determinism -/

/-- Run a list of `(key, clock)` calls through a strategy's `allow`, keeping
the final store. -/
def runCalls {σ τ : Type}
    (step : Store σ → String → τ → Bool × Store σ) :
    Store σ → List (String × τ) → Store σ
  | s, [] => s
  | s, c :: h => runCalls step (step s c.1 c.2).2 h

/-- A fixed-window call writes no key other than its own. -/
theorem fw_allow_frame (cfg : FWConfig) (s : Store (ℤ × ℤ)) (key : String)
    (t : ℤ) (q : String) (hq : q ≠ key) :
    (FixedWindowCounterStrategy.allow cfg s key t).2 q = s q := by
  simp only [FixedWindowCounterStrategy.allow]
  split_ifs <;> simp [Store.update_other _ _ _ _ hq]

/-- A fixed-window call reads only its own key: decision and the written
per-key state depend on the store only through `store key`. -/
theorem fw_allow_local (cfg : FWConfig) (s₁ s₂ : Store (ℤ × ℤ)) (key : String)
    (t : ℤ) (h : s₁ key = s₂ key) :
    (FixedWindowCounterStrategy.allow cfg s₁ key t).1
      = (FixedWindowCounterStrategy.allow cfg s₂ key t).1
    ∧ (FixedWindowCounterStrategy.allow cfg s₁ key t).2 key
      = (FixedWindowCounterStrategy.allow cfg s₂ key t).2 key := by
  constructor
  · simp only [FixedWindowCounterStrategy.allow, h]
    split_ifs <;> rfl
  · simp only [FixedWindowCounterStrategy.allow, h]
    split_ifs <;> simp [Store.update_self, h]

/-- A sliding-window call writes no key other than its own. -/
theorem sw_allow_frame (cfg : SWConfig) (logs : Store (List ℚ)) (key : String)
    (t : ℚ) (q : String) (hq : q ≠ key) :
    (SlidingWindowLogStrategy.allow cfg logs key t).2 q = logs q :=
  Store.update_other _ _ _ _ hq

/-- A sliding-window call reads only its own key. -/
theorem sw_allow_local (cfg : SWConfig) (s₁ s₂ : Store (List ℚ)) (key : String)
    (t : ℚ) (h : s₁ key = s₂ key) :
    (SlidingWindowLogStrategy.allow cfg s₁ key t).1
      = (SlidingWindowLogStrategy.allow cfg s₂ key t).1
    ∧ (SlidingWindowLogStrategy.allow cfg s₁ key t).2 key
      = (SlidingWindowLogStrategy.allow cfg s₂ key t).2 key := by
  constructor
  · simp only [SlidingWindowLogStrategy.allow, h]
  · simp only [SlidingWindowLogStrategy.allow, h, Store.update_self]

/-- A token-bucket call writes no key other than its own. -/
theorem tb_allow_frame (cfg : TBConfig) (b : Store (ℚ × ℚ)) (key : String)
    (t : ℚ) (q : String) (hq : q ≠ key) :
    (TokenBucketStrategy.allow cfg b key t).2 q = b q := by
  simp only [TokenBucketStrategy.allow]
  split_ifs <;> exact Store.update_other _ _ _ _ hq

/-- A token-bucket call reads only its own key. -/
theorem tb_allow_local (cfg : TBConfig) (s₁ s₂ : Store (ℚ × ℚ)) (key : String)
    (t : ℚ) (h : s₁ key = s₂ key) :
    (TokenBucketStrategy.allow cfg s₁ key t).1
      = (TokenBucketStrategy.allow cfg s₂ key t).1
    ∧ (TokenBucketStrategy.allow cfg s₁ key t).2 key
      = (TokenBucketStrategy.allow cfg s₂ key t).2 key := by
  constructor
  · simp only [TokenBucketStrategy.allow, h]
    split_ifs <;> rfl
  · simp only [TokenBucketStrategy.allow, h]
    split_ifs <;> simp [Store.update_self]

/-- Deleting all calls for key `b` from a call history does not change the
resulting store at any key other than `b`, for any step function that only
reads and writes its own key. -/
theorem runCalls_filter_agree {σ τ : Type}
    (step : Store σ → String → τ → Bool × Store σ)
    (frame : ∀ (s : Store σ) (k : String) (t : τ) (q : String),
      q ≠ k → (step s k t).2 q = s q)
    (loc : ∀ (s₁ s₂ : Store σ) (k : String) (t : τ),
      s₁ k = s₂ k → (step s₁ k t).2 k = (step s₂ k t).2 k)
    (b : String) (h : List (String × τ)) :
    ∀ (s₁ s₂ : Store σ), (∀ q, q ≠ b → s₁ q = s₂ q) →
      ∀ q, q ≠ b →
        runCalls step s₁ h q
          = runCalls step s₂ (h.filter (fun c => decide (c.1 ≠ b))) q := by
  induction h with
  | nil => exact fun s₁ s₂ hag q hq => hag q hq
  | cons c h ih =>
    intro s₁ s₂ hag q hq
    by_cases hcb : c.1 = b
    · have hf : (c :: h).filter (fun x => decide (x.1 ≠ b))
          = h.filter (fun x => decide (x.1 ≠ b)) := by
        simp [List.filter_cons, hcb]
      rw [hf]
      show runCalls step (step s₁ c.1 c.2).2 h q = _
      refine ih (step s₁ c.1 c.2).2 s₂ ?_ q hq
      intro q' hq'
      rw [frame s₁ c.1 c.2 q' (by rw [hcb]; exact hq'), hag q' hq']
    · have hf : (c :: h).filter (fun x => decide (x.1 ≠ b))
          = c :: h.filter (fun x => decide (x.1 ≠ b)) := by
        simp [List.filter_cons, hcb]
      rw [hf]
      show runCalls step (step s₁ c.1 c.2).2 h q
          = runCalls step (step s₂ c.1 c.2).2
              (h.filter (fun x => decide (x.1 ≠ b))) q
      refine ih (step s₁ c.1 c.2).2 (step s₂ c.1 c.2).2 ?_ q hq
      intro q' hq'
      by_cases hqc : q' = c.1
      · subst hqc
        exact loc s₁ s₂ c.1 c.2 (hag c.1 hcb)
      · rw [frame s₁ c.1 c.2 q' hqc, frame s₂ c.1 c.2 q' hqc]
        exact hag q' hq'

/-- Claim C7: for every strategy and distinct keys `a ≠ b`, deleting all of
`b`'s calls from the preceding history changes neither the decision of a
subsequent `allow` call for `a` nor `a`'s per-key state. -/
theorem C7_cross_key_independence
    (a b : String) (hab : a ≠ b)
    (fwCfg : FWConfig) (fwS : Store (ℤ × ℤ)) (fwH : List (String × ℤ)) (tF : ℤ)
    (swCfg : SWConfig) (swS : Store (List ℚ)) (swH : List (String × ℚ)) (tS : ℚ)
    (tbCfg : TBConfig) (tbS : Store (ℚ × ℚ)) (tbH : List (String × ℚ)) (tT : ℚ) :
    ((FixedWindowCounterStrategy.allow fwCfg
        (runCalls (FixedWindowCounterStrategy.allow fwCfg) fwS fwH) a tF).1
      = (FixedWindowCounterStrategy.allow fwCfg
          (runCalls (FixedWindowCounterStrategy.allow fwCfg) fwS
            (fwH.filter (fun c => decide (c.1 ≠ b)))) a tF).1)
    ∧ runCalls (FixedWindowCounterStrategy.allow fwCfg) fwS fwH a
      = runCalls (FixedWindowCounterStrategy.allow fwCfg) fwS
          (fwH.filter (fun c => decide (c.1 ≠ b))) a
    ∧ ((SlidingWindowLogStrategy.allow swCfg
        (runCalls (SlidingWindowLogStrategy.allow swCfg) swS swH) a tS).1
      = (SlidingWindowLogStrategy.allow swCfg
          (runCalls (SlidingWindowLogStrategy.allow swCfg) swS
            (swH.filter (fun c => decide (c.1 ≠ b)))) a tS).1)
    ∧ runCalls (SlidingWindowLogStrategy.allow swCfg) swS swH a
      = runCalls (SlidingWindowLogStrategy.allow swCfg) swS
          (swH.filter (fun c => decide (c.1 ≠ b))) a
    ∧ ((TokenBucketStrategy.allow tbCfg
        (runCalls (TokenBucketStrategy.allow tbCfg) tbS tbH) a tT).1
      = (TokenBucketStrategy.allow tbCfg
          (runCalls (TokenBucketStrategy.allow tbCfg) tbS
            (tbH.filter (fun c => decide (c.1 ≠ b)))) a tT).1)
    ∧ runCalls (TokenBucketStrategy.allow tbCfg) tbS tbH a
      = runCalls (TokenBucketStrategy.allow tbCfg) tbS
          (tbH.filter (fun c => decide (c.1 ≠ b))) a := by
  have hF := runCalls_filter_agree (FixedWindowCounterStrategy.allow fwCfg)
    (fun s k t q hq => fw_allow_frame fwCfg s k t q hq)
    (fun s₁ s₂ k t h => (fw_allow_local fwCfg s₁ s₂ k t h).2)
    b fwH fwS fwS (fun _ _ => rfl)
  have hS := runCalls_filter_agree (SlidingWindowLogStrategy.allow swCfg)
    (fun s k t q hq => sw_allow_frame swCfg s k t q hq)
    (fun s₁ s₂ k t h => (sw_allow_local swCfg s₁ s₂ k t h).2)
    b swH swS swS (fun _ _ => rfl)
  have hT := runCalls_filter_agree (TokenBucketStrategy.allow tbCfg)
    (fun s k t q hq => tb_allow_frame tbCfg s k t q hq)
    (fun s₁ s₂ k t h => (tb_allow_local tbCfg s₁ s₂ k t h).2)
    b tbH tbS tbS (fun _ _ => rfl)
  exact ⟨(fw_allow_local fwCfg _ _ a tF (hF a hab)).1, hF a hab,
    (sw_allow_local swCfg _ _ a tS (hS a hab)).1, hS a hab,
    (tb_allow_local tbCfg _ _ a tT (hT a hab)).1, hT a hab⟩

/-- Witness for C7: with keys `"a" ≠ "b"` and a concrete interleaved history,
the fixed-window store at `"a"` is unchanged by deleting `"b"`'s calls. -/
theorem C7_cross_key_independence_witness :
    runCalls (FixedWindowCounterStrategy.allow ⟨10, 2⟩) Store.empty
        [("b", 3), ("a", 4)] "a"
      = runCalls (FixedWindowCounterStrategy.allow ⟨10, 2⟩) Store.empty
          ([("b", 3), ("a", 4)].filter (fun c => decide (c.1 ≠ "b"))) "a" :=
  (C7_cross_key_independence "a" "b" (by decide)
    ⟨10, 2⟩ Store.empty [("b", 3), ("a", 4)] 0
    ⟨10, 5⟩ Store.empty [] 0
    ⟨1, 5⟩ Store.empty [] 0).2.1

/-- Claim C10: each strategy's `allow` is a deterministic function of the
per-key stored state, the key, and the clock reading: stores that agree at
the key yield the same decision and the same resulting per-key state. -/
theorem C10_deterministic_per_key_function
    (fwCfg : FWConfig) (fwS₁ fwS₂ : Store (ℤ × ℤ)) (keyF : String) (tF : ℤ)
    (swCfg : SWConfig) (swS₁ swS₂ : Store (List ℚ)) (keyS : String) (tS : ℚ)
    (tbCfg : TBConfig) (tbS₁ tbS₂ : Store (ℚ × ℚ)) (keyT : String) (tT : ℚ)
    (hF : fwS₁ keyF = fwS₂ keyF) (hS : swS₁ keyS = swS₂ keyS)
    (hT : tbS₁ keyT = tbS₂ keyT) :
    (FixedWindowCounterStrategy.allow fwCfg fwS₁ keyF tF).1
      = (FixedWindowCounterStrategy.allow fwCfg fwS₂ keyF tF).1
    ∧ (FixedWindowCounterStrategy.allow fwCfg fwS₁ keyF tF).2 keyF
      = (FixedWindowCounterStrategy.allow fwCfg fwS₂ keyF tF).2 keyF
    ∧ (SlidingWindowLogStrategy.allow swCfg swS₁ keyS tS).1
      = (SlidingWindowLogStrategy.allow swCfg swS₂ keyS tS).1
    ∧ (SlidingWindowLogStrategy.allow swCfg swS₁ keyS tS).2 keyS
      = (SlidingWindowLogStrategy.allow swCfg swS₂ keyS tS).2 keyS
    ∧ (TokenBucketStrategy.allow tbCfg tbS₁ keyT tT).1
      = (TokenBucketStrategy.allow tbCfg tbS₂ keyT tT).1
    ∧ (TokenBucketStrategy.allow tbCfg tbS₁ keyT tT).2 keyT
      = (TokenBucketStrategy.allow tbCfg tbS₂ keyT tT).2 keyT :=
  ⟨(fw_allow_local fwCfg fwS₁ fwS₂ keyF tF hF).1,
   (fw_allow_local fwCfg fwS₁ fwS₂ keyF tF hF).2,
   (sw_allow_local swCfg swS₁ swS₂ keyS tS hS).1,
   (sw_allow_local swCfg swS₁ swS₂ keyS tS hS).2,
   (tb_allow_local tbCfg tbS₁ tbS₂ keyT tT hT).1,
   (tb_allow_local tbCfg tbS₁ tbS₂ keyT tT hT).2⟩

/-- Witness for C10: two fixed-window stores that agree at key `"k"` but
differ at another key decide a call for `"k"` identically. -/
theorem C10_deterministic_per_key_function_witness :
    (FixedWindowCounterStrategy.allow ⟨10, 2⟩
        (Store.update Store.empty "k" (1, 0)) "k" 5).1
      = (FixedWindowCounterStrategy.allow ⟨10, 2⟩
          (Store.update (Store.update Store.empty "x" (9, 9)) "k" (1, 0))
          "k" 5).1 :=
  (C10_deterministic_per_key_function ⟨10, 2⟩
    (Store.update Store.empty "k" (1, 0))
    (Store.update (Store.update Store.empty "x" (9, 9)) "k" (1, 0)) "k" 5
    ⟨10, 5⟩ (Store.update Store.empty "k" [])
    (Store.update (Store.update Store.empty "y" [1]) "k" []) "k" 0
    ⟨1, 5⟩ (Store.update Store.empty "k" (1, 2))
    (Store.update (Store.update Store.empty "z" (3, 4)) "k" (1, 2)) "k" 0
    (by simp [Store.update_self]) (by simp [Store.update_self])
    (by simp [Store.update_self])).1

/-! ### The sliding-window admission cap (claim C1)

The key invariant: before each call the stored log equals the admitted
timestamps of the history restricted to the current trailing window, so the
`len(log) < max_requests` check bounds the admitted count in every trailing
window. -/

theorem admittedTimes_nil : admittedTimes [] = [] := rfl

theorem admittedTimes_cons_true (t : ℚ) (out : List (ℚ × Bool)) :
    admittedTimes ((t, true) :: out) = t :: admittedTimes out := by
  simp [admittedTimes]

theorem admittedTimes_cons_false (t : ℚ) (out : List (ℚ × Bool)) :
    admittedTimes ((t, false) :: out) = admittedTimes out := by
  simp [admittedTimes]

/-- On a non-decreasing list, trimming the elements `< b` off the front is the
same as filtering for `b ≤ ·`. -/
theorem dropWhile_sorted_eq_filter (b : ℚ) :
    ∀ l : List ℚ, l.Sorted (· ≤ ·) →
      l.dropWhile (fun u => decide (u < b)) = l.filter (fun u => decide (b ≤ u))
  | [], _ => rfl
  | a :: l, h => by
    rcases List.sorted_cons.mp h with ⟨ha, hl⟩
    by_cases hab : a < b
    · rw [List.dropWhile_cons, if_pos (by simpa using hab), List.filter_cons,
        if_neg (by simpa using not_le.mpr hab)]
      exact dropWhile_sorted_eq_filter b l hl
    · rw [List.dropWhile_cons, if_neg (by simpa using hab), List.filter_cons,
        if_pos (by simpa using not_lt.mp hab)]
      have : List.filter (fun u => decide (b ≤ u)) l = l :=
        List.filter_eq_self.mpr (fun x hx => by
          simp only [decide_eq_true_eq]
          exact le_trans (not_lt.mp hab) (ha x hx))
      rw [this]

/-- Filtering by a condition that implies an earlier filter's condition
collapses the two filters. -/
theorem filter_subsume {α : Type} (p q : α → Bool)
    (hpq : ∀ a, q a = true → p a = true) :
    ∀ l : List α, (l.filter p).filter q = l.filter q
  | [] => rfl
  | a :: l => by
    by_cases hpa : p a = true
    · rw [List.filter_cons, if_pos hpa, List.filter_cons, List.filter_cons,
        filter_subsume p q hpq l]
    · have hqa : ¬ q a = true := fun hq => hpa (hpq a hq)
      rw [List.filter_cons, if_neg hpa, List.filter_cons, if_neg hqa,
        filter_subsume p q hpq l]

/-- Pruning a log that is the admitted history restricted to the window at
`t0` against the later window at `t` yields the admitted history restricted
to the window at `t`. -/
theorem sw_pruned_eq (cfg : SWConfig) (A : List ℚ) (t0 t : ℚ)
    (hA : A.Sorted (· ≤ ·)) (ht : t0 ≤ t) :
    (A.filter (fun u => decide (t0 - cfg.window_size ≤ u))).dropWhile
        (fun u => decide (u < t - cfg.window_size))
      = A.filter (fun u => decide (t - cfg.window_size ≤ u)) := by
  rw [dropWhile_sorted_eq_filter (t - cfg.window_size) _
      (List.Pairwise.filter _ hA)]
  exact filter_subsume _ _ (fun a ha => by
    simp only [decide_eq_true_eq] at ha ⊢
    exact le_trans (sub_le_sub_right ht _) ha) A

/-- Master induction for the sliding-window cap: processing a non-decreasing
call sequence `ts` after an already-admitted sorted history `A` (all of it at
or before `t0`, with the window-restricted part within the cap), every call in
`ts` sees at most `max_requests` admitted timestamps in its trailing window. -/
theorem sw_window_cap_aux (cfg : SWConfig) (hW : 0 < cfg.window_size) :
    ∀ (ts : List ℚ), ts.Sorted (· ≤ ·) →
      ∀ (A : List ℚ) (t0 : ℚ), A.Sorted (· ≤ ·) →
        (∀ a ∈ A, a ≤ t0) → (∀ u ∈ ts, t0 ≤ u) →
        ((A.filter (fun u => decide (t0 - cfg.window_size ≤ u))).length : ℤ)
          ≤ cfg.max_requests →
        ∀ (i : ℕ) (hi : i < ts.length),
          (((A ++ admittedTimes
              (((SlidingWindowLogStrategy.steps cfg
                  (A.filter (fun u => decide (t0 - cfg.window_size ≤ u)))
                  ts).1).take (i + 1))).filter
              (fun u => decide (ts.get ⟨i, hi⟩ - cfg.window_size ≤ u))).length : ℤ)
            ≤ cfg.max_requests := by
  intro ts
  induction ts with
  | nil => exact fun _ A t0 _ _ _ _ i hi => absurd hi (by simp)
  | cons t ts ih =>
    intro hsort A t0 hA hAt0 hts0 hlen i hi
    rcases List.sorted_cons.mp hsort with ⟨hthead, hsort'⟩
    have ht0t : t0 ≤ t := hts0 t (List.mem_cons_self t ts)
    have hpruned := sw_pruned_eq cfg A t0 t hA ht0t
    have hkey : SlidingWindowLogStrategy.allowKey cfg
        (A.filter (fun u => decide (t0 - cfg.window_size ≤ u))) t
        = (if ((A.filter (fun u => decide (t - cfg.window_size ≤ u))).length : ℤ)
              < cfg.max_requests
           then (true,
             A.filter (fun u => decide (t - cfg.window_size ≤ u)) ++ [t])
           else (false,
             A.filter (fun u => decide (t - cfg.window_size ≤ u)))) := by
      simp only [SlidingWindowLogStrategy.allowKey, hpruned]
    have hfilt : (A ++ [t]).filter (fun u => decide (t - cfg.window_size ≤ u))
        = A.filter (fun u => decide (t - cfg.window_size ≤ u)) ++ [t] := by
      rw [List.filter_append]
      congr 1
      simp [sub_le_self, le_of_lt hW]
    have hAt : ∀ a ∈ A ++ [t], a ≤ t := by
      intro a ha
      rcases List.mem_append.mp ha with h1 | h2
      · exact le_trans (hAt0 a h1) ht0t
      · simp only [List.mem_singleton] at h2
        exact le_of_eq h2
    have hnewlen : ((A.filter
        (fun u => decide (t - cfg.window_size ≤ u))).length : ℤ)
        ≤ cfg.max_requests := by
      have hsub : A.filter (fun u => decide (t - cfg.window_size ≤ u))
          = (A.filter (fun u => decide (t0 - cfg.window_size ≤ u))).filter
              (fun u => decide (t - cfg.window_size ≤ u)) :=
        (filter_subsume _ _ (fun a ha => by
          simp only [decide_eq_true_eq] at ha ⊢
          exact le_trans (sub_le_sub_right ht0t _) ha) A).symm
      rw [hsub]
      exact le_trans (by exact_mod_cast List.length_filter_le _ _) hlen
    by_cases hadm : ((A.filter
        (fun u => decide (t - cfg.window_size ≤ u))).length : ℤ)
        < cfg.max_requests
    · rw [if_pos hadm] at hkey
      have hA' : (A ++ [t]).Sorted (· ≤ ·) := by
        rw [List.Sorted, List.pairwise_append]
        exact ⟨hA, List.pairwise_singleton _ _, by
          intro x hx y hy
          simp only [List.mem_singleton] at hy
          subst hy
          exact le_trans (hAt0 x hx) ht0t⟩
      have hlen' : (((A ++ [t]).filter
          (fun u => decide (t - cfg.window_size ≤ u))).length : ℤ)
          ≤ cfg.max_requests := by
        rw [hfilt]
        simp only [List.length_append, List.length_singleton]
        push_cast
        omega
      simp only [SlidingWindowLogStrategy.steps, hkey]
      cases i with
      | zero =>
        simp only [List.take_succ_cons, List.take_zero,
          admittedTimes_cons_true, admittedTimes_nil]
        rw [show (t :: ts).get ⟨0, hi⟩ = t from rfl, hfilt]
        simp only [List.length_append, List.length_singleton]
        push_cast
        omega
      | succ j =>
        have hj : j < ts.length := by
          simp only [List.length_cons] at hi
          omega
        have hgoalget : (t :: ts).get ⟨j + 1, hi⟩ = ts.get ⟨j, hj⟩ := by
          simp [List.get_cons_succ]
        rw [hgoalget, List.take_succ_cons, admittedTimes_cons_true,
          List.append_cons]
        have h := ih hsort' (A ++ [t]) t hA' hAt hthead hlen' j hj
        rw [hfilt] at h
        exact h
    · rw [if_neg hadm] at hkey
      simp only [SlidingWindowLogStrategy.steps, hkey]
      cases i with
      | zero =>
        simp only [List.take_succ_cons, List.take_zero,
          admittedTimes_cons_false, admittedTimes_nil, List.append_nil]
        rw [show (t :: ts).get ⟨0, hi⟩ = t from rfl]
        exact hnewlen
      | succ j =>
        have hj : j < ts.length := by
          simp only [List.length_cons] at hi
          omega
        have hgoalget : (t :: ts).get ⟨j + 1, hi⟩ = ts.get ⟨j, hj⟩ := by
          simp [List.get_cons_succ]
        rw [hgoalget, List.take_succ_cons, admittedTimes_cons_false]
        exact ih hsort' A t hA (fun a ha => le_trans (hAt0 a ha) ht0t)
          hthead hnewlen j hj

/-- Claim C1: for a sliding-window strategy with positive window size and
non-negative `max_requests`, along any sequence of calls for one key at
non-decreasing clock values the number of admitted calls whose timestamps lie
within the trailing window of length `window_size` ending at any given call
never exceeds `max_requests`. -/
theorem C1_sliding_window_trailing_cap (cfg : SWConfig)
    (hW : 0 < cfg.window_size) (hN : 0 ≤ cfg.max_requests)
    (ts : List ℚ) (hts : ts.Sorted (· ≤ ·)) (i : ℕ) (hi : i < ts.length) :
    (((admittedTimes
        (((SlidingWindowLogStrategy.steps cfg [] ts).1).take (i + 1))).filter
        (fun u => decide (ts.get ⟨i, hi⟩ - cfg.window_size ≤ u))).length : ℤ)
      ≤ cfg.max_requests := by
  cases ts with
  | nil => exact absurd hi (by simp)
  | cons t ts' =>
    rcases List.sorted_cons.mp hts with ⟨hthead, _⟩
    have hts0 : ∀ u ∈ t :: ts', t ≤ u := by
      intro u hu
      rcases List.mem_cons.mp hu with h1 | h2
      · exact le_of_eq h1.symm
      · exact hthead u h2
    have h := sw_window_cap_aux cfg hW (t :: ts') hts [] t List.sorted_nil
      (by simp) hts0 (by simpa using hN) i hi
    simpa using h

/-- Witness for C1: window size 10, `max_requests = 2`, calls at clocks
0, 1, 2 (the third is denied): each call sees at most 2 admitted timestamps
in its trailing window. -/
theorem C1_sliding_window_trailing_cap_witness :
    (((admittedTimes
        (((SlidingWindowLogStrategy.steps ⟨10, 2⟩ [] [0, 1, 2]).1).take
          (2 + 1))).filter
        (fun u => decide (([0, 1, 2] : List ℚ).get ⟨2, by decide⟩ - (10 : ℚ)
          ≤ u))).length : ℤ)
      ≤ 2 :=
  C1_sliding_window_trailing_cap ⟨10, 2⟩ (by norm_num) (by norm_num)
    [0, 1, 2] (by norm_num [List.sorted_cons]) 2 (by decide)

end RateLimiterRepo
